import Mathlib

/-!
Verification of the constant-propagation pass
(`zokrates_core/src/static_analysis/propagation.rs`).

The pass rewrites a typed, loop-free program so that every sub-expression
that is provably constant is folded to a literal, and every variable
definition whose right-hand side reduces to a literal is eliminated in
favour of substitution at each use site.

The field type `T : Field` (`FieldPrime` in `field.rs`) is not part of the
analysed file; its arithmetic is modelled from the specification: elements
are canonical non-negative integers below a prime modulus `p`, with
addition, subtraction, multiplication, inverse-based division and
exponentiation taken modulo `p`.  Division by zero and oversized
exponents fail; these failures, and the internal invariant violations of
the pass itself (kind mismatch, residual loop constructs), are modelled
with an `Except` error monad.
-/

namespace Propagation

/-- Modelled from the spec: the error conditions of the pass (§7 of the
spec).  `divisionByZero` and `boundedInput` are the user-detectable
compile errors; `kindMismatch` and `unexpectedFor` model the
internal-invariant panics in `propagation.rs` (lines 37, 97, 191). -/
inductive PropError where
  | divisionByZero
  | boundedInput
  | kindMismatch
  | unexpectedFor
deriving DecidableEq, Repr

/-- Modelled from the spec: the configured maximum exponent magnitude for
`Pow` folding (`field.rs` is not under `src/`; the spec leaves the exact
bound open and asks for a concrete documented choice). -/
def maxExp : Nat := 2 ^ 32

/-- Modelled from the spec: the fixed large prime modulus of the field
(`FieldPrime` in `field.rs`, not under `src/`). -/
def fieldPrime : Nat :=
  21888242871839275222246405745257275088548364400416034343698204186575808495617

/-- Modelled from the spec: modular addition of canonical representatives. -/
def fadd (p a b : Nat) : Nat := (a + b) % p

/-- Modelled from the spec: modular subtraction of canonical
representatives. -/
def fsub (p a b : Nat) : Nat := (a + (p - b % p)) % p

/-- Modelled from the spec: modular multiplication of canonical
representatives. -/
def fmul (p a b : Nat) : Nat := (a * b) % p

/-- Modelled from the spec: the field's multiplicative inverse, via
Fermat exponentiation `b ^ (p - 2) mod p`. -/
def finv (p b : Nat) : Nat := b ^ (p - 2) % p

/-- Modelled from the spec: division computes the multiplicative inverse
of the divisor and multiplies; if the divisor is the additive identity
the division fails with a division-by-zero condition. -/
def fdiv (p a b : Nat) : Except PropError Nat :=
  if b % p = 0 then .error .divisionByZero
  else .ok (fmul p a (finv p b))

/-- Modelled from the spec: exponentiation where the exponent literal is
interpreted as a non-negative integer; an exponent above the configured
maximum magnitude fails with a bounded-input violation. -/
def fpow (p a b : Nat) : Except PropError Nat :=
  if maxExp < b then .error .boundedInput
  else .ok (a ^ b % p)

/-- Value kind tag of a variable (`Type` in the typed AST). -/
inductive VarKind where
  | fieldElement
  | boolean
deriving DecidableEq, Repr

/-- A variable: identifier paired with a value kind tag
(`absy::variable::Variable`). -/
structure Variable where
  id : String
  kind : VarKind
deriving DecidableEq, Repr

/-- Constructor used by the Identifier lookup (`Variable::field_element`). -/
def Variable.field_element (id : String) : Variable := ⟨id, .fieldElement⟩

/-- Constructor used by the Identifier lookup (`Variable::boolean`). -/
def Variable.boolean (id : String) : Variable := ⟨id, .boolean⟩

mutual
/-- Field-element-valued expressions (`FieldElementExpression<T>`).
`Number` carries the canonical representative of the field literal. -/
inductive FieldElementExpression where
  | Number (n : Nat)
  | Identifier (id : String)
  | Add (e1 e2 : FieldElementExpression)
  | Sub (e1 e2 : FieldElementExpression)
  | Mult (e1 e2 : FieldElementExpression)
  | Div (e1 e2 : FieldElementExpression)
  | Pow (e1 e2 : FieldElementExpression)
  | IfElse (condition : BooleanExpression)
      (consequence alternative : FieldElementExpression)
  | FunctionCall (id : String) (arguments : List TypedExpression)

/-- Boolean-valued expressions (`BooleanExpression<T>`). -/
inductive BooleanExpression where
  | Value (b : Bool)
  | Identifier (id : String)
  | Eq (e1 e2 : FieldElementExpression)
  | Lt (e1 e2 : FieldElementExpression)
  | Le (e1 e2 : FieldElementExpression)
  | Gt (e1 e2 : FieldElementExpression)
  | Ge (e1 e2 : FieldElementExpression)

/-- The tagged union of the two expression kinds (`TypedExpression<T>`). -/
inductive TypedExpression where
  | FieldElement (e : FieldElementExpression)
  | Boolean (e : BooleanExpression)
end

/-- The constant environment
(`HashMap<Variable, TypedExpression<T>>`): association list where
insertion prepends, so lookup sees the most recent binding, matching
`HashMap::insert` overwrite semantics observationally. -/
abbrev Env := List (Variable × TypedExpression)

/-- Lookup in the constant environment (`HashMap::get`). -/
def envGet (constants : Env) (v : Variable) : Option TypedExpression :=
  (constants.find? (fun kv => decide (kv.1 = v))).map (fun kv => kv.2)

/-- Insertion into the constant environment (`HashMap::insert`). -/
def envInsert (constants : Env) (v : Variable) (e : TypedExpression) : Env :=
  (v, e) :: constants

/-- Multi-valued right-hand sides (`TypedExpressionList<T>`): exactly one
variant, a function call with declared return kinds. -/
inductive TypedExpressionList where
  | FunctionCall (id : String) (arguments : List TypedExpression)
      (kinds : List VarKind)

/-- Statements of the typed AST (`TypedStatement<T>`).  `For` is the loop
construct that must already have been eliminated upstream. -/
inductive TypedStatement where
  | Declaration (v : Variable)
  | Definition (v : Variable) (e : TypedExpression)
  | Condition (e1 e2 : TypedExpression)
  | Return (es : List TypedExpression)
  | For (v : Variable) (first last : Nat) (body : List TypedStatement)
  | MultipleDefinition (vs : List Variable) (es : TypedExpressionList)

/-- One function of the typed AST (`TypedFunction<T>`): only `statements`
is rewritten by the pass; the remaining fields model the signature. -/
structure TypedFunction where
  id : String
  arguments : List Variable
  returnKinds : List VarKind
  statements : List TypedStatement

/-- The whole program (`TypedProg<T>`): an ordered list of functions plus
the remaining fields, which the pass leaves untouched. -/
structure TypedProg where
  functions : List TypedFunction
  imports : List String

mutual
/-- Embedding of `FieldElementExpression::propagate` (propagation.rs
lines 29-87): post-order folding against a read-only constant
environment.  The `functions` argument is threaded exactly as in the
source, which never reads it. -/
def FieldElementExpression.propagate (p : Nat) (constants : Env)
    (functions : List TypedFunction) :
    FieldElementExpression → Except PropError FieldElementExpression
  | .Number n => .ok (.Number n)
  | .Identifier id =>
      match envGet constants (Variable.field_element id) with
      | some (TypedExpression.FieldElement e) => .ok e
      | some _ => .error .kindMismatch
      | none => .ok (.Identifier id)
  | .Add e1 e2 => do
      match (← e1.propagate p constants functions),
            (← e2.propagate p constants functions) with
      | .Number n1, .Number n2 => .ok (.Number (fadd p n1 n2))
      | e1, e2 => .ok (.Add e1 e2)
  | .Sub e1 e2 => do
      match (← e1.propagate p constants functions),
            (← e2.propagate p constants functions) with
      | .Number n1, .Number n2 => .ok (.Number (fsub p n1 n2))
      | e1, e2 => .ok (.Sub e1 e2)
  | .Mult e1 e2 => do
      match (← e1.propagate p constants functions),
            (← e2.propagate p constants functions) with
      | .Number n1, .Number n2 => .ok (.Number (fmul p n1 n2))
      | e1, e2 => .ok (.Mult e1 e2)
  | .Div e1 e2 => do
      match (← e1.propagate p constants functions),
            (← e2.propagate p constants functions) with
      | .Number n1, .Number n2 => do
          let n ← fdiv p n1 n2
          .ok (.Number n)
      | e1, e2 => .ok (.Div e1 e2)
  | .Pow e1 e2 => do
      match (← e1.propagate p constants functions),
            (← e2.propagate p constants functions) with
      | .Number n1, .Number n2 => do
          let n ← fpow p n1 n2
          .ok (.Number n)
      | e1, e2 => .ok (.Pow e1 e2)
  | .IfElse condition consequence alternative => do
      let consequence ← consequence.propagate p constants functions
      let alternative ← alternative.propagate p constants functions
      match ← condition.propagate p constants functions with
      | .Value true => .ok consequence
      | .Value false => .ok alternative
      | c => .ok (.IfElse c consequence alternative)
  | .FunctionCall id arguments => do
      let arguments ← TypedExpression.propagateList p constants functions
        arguments
      .ok (.FunctionCall id arguments)

/-- Embedding of `BooleanExpression::propagate` (propagation.rs lines
89-159). -/
def BooleanExpression.propagate (p : Nat) (constants : Env)
    (functions : List TypedFunction) :
    BooleanExpression → Except PropError BooleanExpression
  | .Value v => .ok (.Value v)
  | .Identifier id =>
      match envGet constants (Variable.boolean id) with
      | some (TypedExpression.Boolean e) => .ok e
      | some _ => .error .kindMismatch
      | none => .ok (.Identifier id)
  | .Eq e1 e2 => do
      let e1 ← e1.propagate p constants functions
      let e2 ← e2.propagate p constants functions
      match e1, e2 with
      | .Number n1, .Number n2 => .ok (.Value (decide (n1 = n2)))
      | e1, e2 => .ok (.Eq e1 e2)
  | .Lt e1 e2 => do
      let e1 ← e1.propagate p constants functions
      let e2 ← e2.propagate p constants functions
      match e1, e2 with
      | .Number n1, .Number n2 => .ok (.Value (decide (n1 < n2)))
      | e1, e2 => .ok (.Lt e1 e2)
  | .Le e1 e2 => do
      let e1 ← e1.propagate p constants functions
      let e2 ← e2.propagate p constants functions
      match e1, e2 with
      | .Number n1, .Number n2 => .ok (.Value (decide (n1 ≤ n2)))
      | e1, e2 => .ok (.Le e1 e2)
  | .Gt e1 e2 => do
      let e1 ← e1.propagate p constants functions
      let e2 ← e2.propagate p constants functions
      match e1, e2 with
      | .Number n1, .Number n2 => .ok (.Value (decide (n2 < n1)))
      | e1, e2 => .ok (.Gt e1 e2)
  | .Ge e1 e2 => do
      let e1 ← e1.propagate p constants functions
      let e2 ← e2.propagate p constants functions
      match e1, e2 with
      | .Number n1, .Number n2 => .ok (.Value (decide (n2 ≤ n1)))
      | e1, e2 => .ok (.Ge e1 e2)

/-- Embedding of `TypedExpression::propagate` (propagation.rs lines
20-27): dispatch on the expression kind. -/
def TypedExpression.propagate (p : Nat) (constants : Env)
    (functions : List TypedFunction) :
    TypedExpression → Except PropError TypedExpression
  | .FieldElement e => do
      let e ← e.propagate p constants functions
      .ok (.FieldElement e)
  | .Boolean e => do
      let e ← e.propagate p constants functions
      .ok (.Boolean e)

/-- Propagation of a list of argument expressions (the
`arguments.into_iter().map(propagate).collect()` calls). -/
def TypedExpression.propagateList (p : Nat) (constants : Env)
    (functions : List TypedFunction) :
    List TypedExpression → Except PropError (List TypedExpression)
  | [] => .ok []
  | e :: rest => do
      let e ← e.propagate p constants functions
      let rest ← TypedExpression.propagateList p constants functions rest
      .ok (e :: rest)
end

/-- The literal test of the Definition arm (propagation.rs line 178):
`Boolean(Value(..))` or `FieldElement(Number(..))`. -/
def isLiteral : TypedExpression → Bool
  | .Boolean (.Value _) => true
  | .FieldElement (.Number _) => true
  | _ => false

/-- Embedding of `TypedExpressionList::propagate` (propagation.rs lines
161-169): only the call's arguments are propagated. -/
def TypedExpressionList.propagate (p : Nat) (constants : Env)
    (functions : List TypedFunction) :
    TypedExpressionList → Except PropError TypedExpressionList
  | .FunctionCall id arguments kinds => do
      let arguments ← TypedExpression.propagateList p constants functions
        arguments
      .ok (.FunctionCall id arguments kinds)

/-- Embedding of `TypedStatement::propagate` (propagation.rs lines
171-198).  The mutable borrow of the constant environment is made
explicit: the result pairs the optional output statement with the
updated environment. -/
def TypedStatement.propagate (p : Nat) (constants : Env)
    (functions : List TypedFunction) :
    TypedStatement → Except PropError (Option TypedStatement × Env)
  | .Declaration v => .ok (some (.Declaration v), constants)
  | .Return es => do
      let es ← TypedExpression.propagateList p constants functions es
      .ok (some (.Return es), constants)
  | .Definition v e => do
      let e ← e.propagate p constants functions
      if isLiteral e then .ok (none, envInsert constants v e)
      else .ok (some (.Definition v e), constants)
  | .Condition e1 e2 => do
      let e1 ← e1.propagate p constants functions
      let e2 ← e2.propagate p constants functions
      .ok (some (.Condition e1 e2), constants)
  | .For _ _ _ _ => .error .unexpectedFor
  | .MultipleDefinition vs es => do
      let es ← es.propagate p constants functions
      .ok (some (.MultipleDefinition vs es), constants)

/-- The `filter_map` over one function's statement list (propagation.rs
line 206), threading the mutable environment sequentially. -/
def propagateStatements (p : Nat) (functions : List TypedFunction)
    (constants : Env) :
    List TypedStatement → Except PropError (List TypedStatement × Env)
  | [] => .ok ([], constants)
  | s :: rest => do
      let (os, constants) ← s.propagate p constants functions
      let (rest, constants) ← propagateStatements p functions constants rest
      match os with
      | none => .ok (rest, constants)
      | some s => .ok (s :: rest, constants)

/-- Embedding of `TypedFunction::propagate` (propagation.rs lines
200-210): a fresh empty environment per function; only `statements` is
replaced. -/
def TypedFunction.propagate (p : Nat) (functions : List TypedFunction)
    (f : TypedFunction) : Except PropError TypedFunction := do
  let (statements, _) ← propagateStatements p functions [] f.statements
  .ok { f with statements := statements }

/-- The driver loop of `TypedProg::propagate` (propagation.rs lines
215-220): already-propagated functions are accumulated and passed to
subsequent functions. -/
def propagateFunctions (p : Nat) (acc : List TypedFunction) :
    List TypedFunction → Except PropError (List TypedFunction)
  | [] => .ok acc
  | f :: rest => do
      let f ← f.propagate p acc
      propagateFunctions p (acc ++ [f]) rest

/-- Embedding of `TypedProg::propagate` (propagation.rs lines 212-227):
only the function list is replaced. -/
def TypedProg.propagate (p : Nat) (prog : TypedProg) :
    Except PropError TypedProg := do
  let functions ← propagateFunctions p [] prog.functions
  .ok { prog with functions := functions }

/-- Binding a success in the propagation error monad applies the
continuation. -/
@[simp]
theorem okBind {α β : Type} (a : α) (f : α → Except PropError β) :
    (Except.ok a >>= f : Except PropError β) = f a := rfl

/-- One-step unfolding of the `Add` arm of the field propagator. -/
theorem add_unfold (p : Nat) (cv : Env) (fns : List TypedFunction)
    (x y : FieldElementExpression) :
    (FieldElementExpression.Add x y).propagate p cv fns
      = (x.propagate p cv fns >>= fun r1 =>
         y.propagate p cv fns >>= fun r2 =>
         match r1, r2 with
         | .Number n1, .Number n2 => .ok (.Number (fadd p n1 n2))
         | r1, r2 => .ok (.Add r1 r2)) := rfl

/-- One-step unfolding of the `Sub` arm of the field propagator. -/
theorem sub_unfold (p : Nat) (cv : Env) (fns : List TypedFunction)
    (x y : FieldElementExpression) :
    (FieldElementExpression.Sub x y).propagate p cv fns
      = (x.propagate p cv fns >>= fun r1 =>
         y.propagate p cv fns >>= fun r2 =>
         match r1, r2 with
         | .Number n1, .Number n2 => .ok (.Number (fsub p n1 n2))
         | r1, r2 => .ok (.Sub r1 r2)) := rfl

/-- One-step unfolding of the `Mult` arm of the field propagator. -/
theorem mult_unfold (p : Nat) (cv : Env) (fns : List TypedFunction)
    (x y : FieldElementExpression) :
    (FieldElementExpression.Mult x y).propagate p cv fns
      = (x.propagate p cv fns >>= fun r1 =>
         y.propagate p cv fns >>= fun r2 =>
         match r1, r2 with
         | .Number n1, .Number n2 => .ok (.Number (fmul p n1 n2))
         | r1, r2 => .ok (.Mult r1 r2)) := rfl

/-- One-step unfolding of the `Div` arm of the field propagator. -/
theorem div_unfold (p : Nat) (cv : Env) (fns : List TypedFunction)
    (x y : FieldElementExpression) :
    (FieldElementExpression.Div x y).propagate p cv fns
      = (x.propagate p cv fns >>= fun r1 =>
         y.propagate p cv fns >>= fun r2 =>
         match r1, r2 with
         | .Number n1, .Number n2 =>
             fdiv p n1 n2 >>= fun n => .ok (.Number n)
         | r1, r2 => .ok (.Div r1 r2)) := rfl

/-- One-step unfolding of the `Pow` arm of the field propagator. -/
theorem pow_unfold (p : Nat) (cv : Env) (fns : List TypedFunction)
    (x y : FieldElementExpression) :
    (FieldElementExpression.Pow x y).propagate p cv fns
      = (x.propagate p cv fns >>= fun r1 =>
         y.propagate p cv fns >>= fun r2 =>
         match r1, r2 with
         | .Number n1, .Number n2 =>
             fpow p n1 n2 >>= fun n => .ok (.Number n)
         | r1, r2 => .ok (.Pow r1 r2)) := rfl

/-- One-step unfolding of the `IfElse` arm of the field propagator:
consequence and alternative are folded before the condition is
examined. -/
theorem ifelse_unfold (p : Nat) (cv : Env) (fns : List TypedFunction)
    (c : BooleanExpression) (t f : FieldElementExpression) :
    (FieldElementExpression.IfElse c t f).propagate p cv fns
      = (t.propagate p cv fns >>= fun t' =>
         f.propagate p cv fns >>= fun f' =>
         c.propagate p cv fns >>= fun c' =>
         match c' with
         | .Value true => .ok t'
         | .Value false => .ok f'
         | c' => .ok (.IfElse c' t' f')) := rfl

/-- One-step unfolding of the `FunctionCall` arm of the field
propagator. -/
theorem fcall_unfold (p : Nat) (cv : Env) (fns : List TypedFunction)
    (id : String) (args : List TypedExpression) :
    (FieldElementExpression.FunctionCall id args).propagate p cv fns
      = (TypedExpression.propagateList p cv fns args >>= fun args' =>
         .ok (.FunctionCall id args')) := rfl

/-- One-step unfolding of the `Eq` arm of the boolean propagator. -/
theorem beq_unfold (p : Nat) (cv : Env) (fns : List TypedFunction)
    (x y : FieldElementExpression) :
    (BooleanExpression.Eq x y).propagate p cv fns
      = (x.propagate p cv fns >>= fun r1 =>
         y.propagate p cv fns >>= fun r2 =>
         match r1, r2 with
         | .Number n1, .Number n2 => .ok (.Value (decide (n1 = n2)))
         | r1, r2 => .ok (.Eq r1 r2)) := rfl

/-- One-step unfolding of the `Lt` arm of the boolean propagator. -/
theorem blt_unfold (p : Nat) (cv : Env) (fns : List TypedFunction)
    (x y : FieldElementExpression) :
    (BooleanExpression.Lt x y).propagate p cv fns
      = (x.propagate p cv fns >>= fun r1 =>
         y.propagate p cv fns >>= fun r2 =>
         match r1, r2 with
         | .Number n1, .Number n2 => .ok (.Value (decide (n1 < n2)))
         | r1, r2 => .ok (.Lt r1 r2)) := rfl

/-- One-step unfolding of the `Le` arm of the boolean propagator. -/
theorem ble_unfold (p : Nat) (cv : Env) (fns : List TypedFunction)
    (x y : FieldElementExpression) :
    (BooleanExpression.Le x y).propagate p cv fns
      = (x.propagate p cv fns >>= fun r1 =>
         y.propagate p cv fns >>= fun r2 =>
         match r1, r2 with
         | .Number n1, .Number n2 => .ok (.Value (decide (n1 ≤ n2)))
         | r1, r2 => .ok (.Le r1 r2)) := rfl

/-- One-step unfolding of the `Gt` arm of the boolean propagator. -/
theorem bgt_unfold (p : Nat) (cv : Env) (fns : List TypedFunction)
    (x y : FieldElementExpression) :
    (BooleanExpression.Gt x y).propagate p cv fns
      = (x.propagate p cv fns >>= fun r1 =>
         y.propagate p cv fns >>= fun r2 =>
         match r1, r2 with
         | .Number n1, .Number n2 => .ok (.Value (decide (n2 < n1)))
         | r1, r2 => .ok (.Gt r1 r2)) := rfl

/-- One-step unfolding of the `Ge` arm of the boolean propagator. -/
theorem bge_unfold (p : Nat) (cv : Env) (fns : List TypedFunction)
    (x y : FieldElementExpression) :
    (BooleanExpression.Ge x y).propagate p cv fns
      = (x.propagate p cv fns >>= fun r1 =>
         y.propagate p cv fns >>= fun r2 =>
         match r1, r2 with
         | .Number n1, .Number n2 => .ok (.Value (decide (n2 ≤ n1)))
         | r1, r2 => .ok (.Ge r1 r2)) := rfl

/-- One-step unfolding of typed-expression propagation on the
field-element side. -/
theorem tefe_unfold (p : Nat) (cv : Env) (fns : List TypedFunction)
    (e : FieldElementExpression) :
    (TypedExpression.FieldElement e).propagate p cv fns
      = (e.propagate p cv fns >>= fun e' =>
         .ok (.FieldElement e')) := rfl

/-- One-step unfolding of typed-expression propagation on the boolean
side. -/
theorem tebool_unfold (p : Nat) (cv : Env) (fns : List TypedFunction)
    (e : BooleanExpression) :
    (TypedExpression.Boolean e).propagate p cv fns
      = (e.propagate p cv fns >>= fun e' =>
         .ok (.Boolean e')) := rfl

/-- One-step unfolding of argument-list propagation on a cons cell. -/
theorem telist_cons_unfold (p : Nat) (cv : Env) (fns : List TypedFunction)
    (e : TypedExpression) (rest : List TypedExpression) :
    TypedExpression.propagateList p cv fns (e :: rest)
      = (e.propagate p cv fns >>= fun e' =>
         TypedExpression.propagateList p cv fns rest >>= fun rest' =>
         .ok (e' :: rest')) := rfl

/-- Binding a failure in the propagation error monad propagates the
failure. -/
@[simp]
theorem errBind {α β : Type} (er : PropError) (f : α → Except PropError β) :
    (Except.error er >>= f : Except PropError β) = Except.error er := rfl

/-- Mapping over a success in the propagation error monad applies the
function. -/
@[simp]
theorem okMap {α β : Type} (a : α) (f : α → β) :
    (Except.map f (Except.ok a) : Except PropError β) = Except.ok (f a) :=
  rfl

/-- Mapping over a failure in the propagation error monad keeps the
failure. -/
@[simp]
theorem errMap {α β : Type} (er : PropError) (f : α → β) :
    (Except.map f (Except.error er) : Except PropError β)
      = Except.error er := rfl

/-- The pure operation of the propagation error monad is `ok`. -/
@[simp]
theorem pureOk {α : Type} (a : α) :
    (pure a : Except PropError α) = Except.ok a := rfl

/-- For a prime modulus, `finv` really is the multiplicative inverse:
`b * finv p b ≡ 1 (mod p)` whenever `b` is a nonzero canonical
representative. -/
theorem finv_spec (p b : Nat) (hp : p.Prime) (hb : b < p) (hb0 : b ≠ 0) :
    b * finv p b % p = 1 := by
  haveI : Fact p.Prime := ⟨hp⟩
  haveI : NeZero p := ⟨hp.pos.ne'⟩
  have hbz : (b : ZMod p) ≠ 0 := by
    rw [Ne, ZMod.natCast_zmod_eq_zero_iff_dvd]
    intro hdvd
    exact hb0 (Nat.eq_zero_of_dvd_of_lt hdvd hb)
  have hsucc : p - 2 + 1 = p - 1 := by
    have h2 := hp.two_le
    omega
  have key : ((b * finv p b : Nat) : ZMod p) = 1 := by
    have hcast : ((finv p b : Nat) : ZMod p) = (b : ZMod p) ^ (p - 2) := by
      rw [finv, ZMod.natCast_mod, Nat.cast_pow]
    rw [Nat.cast_mul, hcast, mul_comm, ← pow_succ, hsucc]
    exact ZMod.pow_card_sub_one_eq_one hbz
  haveI : Fact (1 < p) := ⟨hp.one_lt⟩
  have hv : ((b * finv p b : Nat) : ZMod p).val = (b * finv p b) % p :=
    ZMod.val_natCast _
  rw [key, ZMod.val_one] at hv
  exact hv.symm

/-- C1 (amended): for canonical field literals `a, b < p`, propagating
`Add`/`Sub`/`Mult` of the two literals folds to the literal of the
modular sum, difference and product; `Pow` folds to the modular power
provided the exponent does not exceed the configured maximum magnitude;
`Div` with `b ≠ 0` folds to `a` times the modular multiplicative inverse
of `b`, which for a prime modulus is a genuine inverse. -/
theorem fold_binary_literals (p a b : Nat) (cv : Env)
    (fns : List TypedFunction) (ha : a < p) (hb : b < p) :
    (FieldElementExpression.Add (.Number a) (.Number b)).propagate p cv fns
      = .ok (.Number ((a + b) % p)) ∧
    (FieldElementExpression.Sub (.Number a) (.Number b)).propagate p cv fns
      = .ok (.Number ((a + (p - b)) % p)) ∧
    (FieldElementExpression.Mult (.Number a) (.Number b)).propagate p cv fns
      = .ok (.Number (a * b % p)) ∧
    (b ≤ maxExp →
      (FieldElementExpression.Pow (.Number a) (.Number b)).propagate p cv fns
        = .ok (.Number (a ^ b % p))) ∧
    (b ≠ 0 →
      (FieldElementExpression.Div (.Number a) (.Number b)).propagate p cv fns
        = .ok (.Number (a * finv p b % p))) ∧
    (p.Prime → b ≠ 0 → b * finv p b % p = 1) := by
  have hbmod : b % p = b := Nat.mod_eq_of_lt hb
  refine ⟨?_, ?_, ?_, ?_, ?_, ?_⟩
  · simp [FieldElementExpression.propagate, fadd]
  · simp [FieldElementExpression.propagate, fsub, hbmod]
  · simp [FieldElementExpression.propagate, fmul]
  · intro hble
    simp [FieldElementExpression.propagate, fpow, Nat.not_lt.mpr hble]
  · intro hb0
    simp [FieldElementExpression.propagate, fdiv, fmul, hbmod, hb0]
  · intro hp hb0
    exact finv_spec p b hp hb hb0

/-- Witness for C1 at `p = 7`, `a = 3`, `b = 2`: `3 + 2 = 5`,
`3 - 2 = 1`, `3 * 2 = 6`, `3 ^ 2 = 2`, and `3 / 2 = 5` since the inverse
of `2` modulo `7` is `4`. -/
theorem fold_binary_literals_witness :
    (FieldElementExpression.Add (.Number 3) (.Number 2)).propagate 7 [] []
      = .ok (.Number 5) ∧
    (FieldElementExpression.Sub (.Number 3) (.Number 2)).propagate 7 [] []
      = .ok (.Number 1) ∧
    (FieldElementExpression.Mult (.Number 3) (.Number 2)).propagate 7 [] []
      = .ok (.Number 6) ∧
    (FieldElementExpression.Pow (.Number 3) (.Number 2)).propagate 7 [] []
      = .ok (.Number 2) ∧
    (FieldElementExpression.Div (.Number 3) (.Number 2)).propagate 7 [] []
      = .ok (.Number 5) ∧
    2 * finv 7 2 % 7 = 1 := by
  have h := fold_binary_literals 7 3 2 [] [] (by decide) (by decide)
  obtain ⟨h1, h2, h3, h4, h5, h6⟩ := h
  refine ⟨h1, h2, h3, ?_, ?_, ?_⟩
  · rw [h4 (by decide)]; rfl
  · rw [h5 (by decide)]; rfl
  · exact h6 (by norm_num) (by decide)

/-- C1 (counterexample): with the field's actual modulus, a `Pow` whose
exponent literal exceeds the configured maximum magnitude does not fold
to the modular power; it fails with the bounded-input violation. -/
theorem fold_pow_large_exponent_counterexample :
    (FieldElementExpression.Pow (.Number 2)
        (.Number 4294967297)).propagate fieldPrime [] []
      = .error .boundedInput ∧
    ¬ ((FieldElementExpression.Pow (.Number 2)
        (.Number 4294967297)).propagate fieldPrime [] []
      = .ok (.Number (2 ^ 4294967297 % fieldPrime))) := by
  have h : (FieldElementExpression.Pow (.Number 2)
      (.Number 4294967297)).propagate fieldPrime [] []
      = .error .boundedInput := by
    simp [FieldElementExpression.propagate, fpow, maxExp]
  refine ⟨h, ?_⟩
  intro hcontra
  rw [h] at hcontra
  exact Except.noConfusion hcontra

/-- C2: propagating `Div(Number(a), Number(0))` fails with the
division-by-zero error, surfaced as an ordinary error value of the
propagation result, for every numerator and every modulus. -/
theorem div_by_zero_fold (p a : Nat) (cv : Env) (fns : List TypedFunction) :
    (FieldElementExpression.Div (.Number a) (.Number 0)).propagate p cv fns
      = .error .divisionByZero := by
  simp [FieldElementExpression.propagate, fdiv]

/-- C6: comparisons of two canonical field literals fold to the boolean
literal of the corresponding integer comparison of the representatives. -/
theorem fold_comparison_literals (p a b : Nat) (cv : Env)
    (fns : List TypedFunction) (ha : a < p) (hb : b < p) :
    (BooleanExpression.Eq (.Number a) (.Number b)).propagate p cv fns
      = .ok (.Value (decide (a = b))) ∧
    (BooleanExpression.Lt (.Number a) (.Number b)).propagate p cv fns
      = .ok (.Value (decide (a < b))) ∧
    (BooleanExpression.Le (.Number a) (.Number b)).propagate p cv fns
      = .ok (.Value (decide (a ≤ b))) ∧
    (BooleanExpression.Gt (.Number a) (.Number b)).propagate p cv fns
      = .ok (.Value (decide (b < a))) ∧
    (BooleanExpression.Ge (.Number a) (.Number b)).propagate p cv fns
      = .ok (.Value (decide (b ≤ a))) := by
  refine ⟨?_, ?_, ?_, ?_, ?_⟩ <;>
    simp [BooleanExpression.propagate, FieldElementExpression.propagate]

/-- Witness for C6 at `p = 7`, `a = 2`, `b = 4`. -/
theorem fold_comparison_literals_witness :
    (BooleanExpression.Eq (.Number 2) (.Number 4)).propagate 7 [] []
      = .ok (.Value false) ∧
    (BooleanExpression.Lt (.Number 2) (.Number 4)).propagate 7 [] []
      = .ok (.Value true) ∧
    (BooleanExpression.Le (.Number 2) (.Number 4)).propagate 7 [] []
      = .ok (.Value true) ∧
    (BooleanExpression.Gt (.Number 2) (.Number 4)).propagate 7 [] []
      = .ok (.Value false) ∧
    (BooleanExpression.Ge (.Number 2) (.Number 4)).propagate 7 [] []
      = .ok (.Value false) := by
  have h := fold_comparison_literals 7 2 4 [] [] (by decide) (by decide)
  obtain ⟨h1, h2, h3, h4, h5⟩ := h
  exact ⟨h1, h2, h3, h4, h5⟩

/-- C7: a `Pow` of two literals whose exponent exceeds the configured
maximum magnitude fails with the bounded-input violation, surfaced as an
ordinary error value of the propagation result. -/
theorem pow_exponent_bound (p a b : Nat) (cv : Env)
    (fns : List TypedFunction) (hb : maxExp < b) :
    (FieldElementExpression.Pow (.Number a) (.Number b)).propagate p cv fns
      = .error .boundedInput := by
  simp [FieldElementExpression.propagate, fpow, hb]

/-- Witness for C7 at exponent `2 ^ 32 + 1` over the field's actual
modulus. -/
theorem pow_exponent_bound_witness :
    (FieldElementExpression.Pow (.Number 2)
        (.Number 4294967297)).propagate fieldPrime [] []
      = .error .boundedInput :=
  pow_exponent_bound fieldPrime 2 4294967297 [] [] (by decide)

/-- C3: a Definition whose propagated right-hand side is a literal is
recorded in the environment and dropped; otherwise it is emitted with
the propagated right-hand side and the environment is untouched.
Consequently the body
`[Definition(x, 2), Definition(y, x + 3), Return([y])]` propagates to
exactly `[Return([5])]`. -/
theorem definition_elimination (p : Nat) (cv : Env)
    (fns : List TypedFunction) (v : Variable) (e : TypedExpression) :
    (TypedStatement.Definition v e).propagate p cv fns =
      (e.propagate p cv fns >>= fun e0 =>
        if isLiteral e0 then .ok (none, envInsert cv v e0)
        else .ok (some (.Definition v e0), cv)) ∧
    TypedFunction.propagate fieldPrime []
      { id := "main", arguments := [], returnKinds := [.fieldElement],
        statements :=
          [ .Definition (Variable.field_element "x")
              (.FieldElement (.Number 2)),
            .Definition (Variable.field_element "y")
              (.FieldElement (.Add (.Identifier "x") (.Number 3))),
            .Return [.FieldElement (.Identifier "y")] ] } =
      .ok { id := "main", arguments := [], returnKinds := [.fieldElement],
            statements := [ .Return [.FieldElement (.Number 5)] ] } :=
  ⟨rfl, rfl⟩

/-- The literal test on boolean conditions: matches exactly the `Value`
patterns of the IfElse arm. -/
def isBoolValue : BooleanExpression → Bool
  | .Value _ => true
  | _ => false

/-- C5: in an IfElse both branches are folded unconditionally (an error
while folding the alternative surfaces even when the condition is a
literal); when the condition folds to `Value(true)` the result is the
folded consequence, when it folds to `Value(false)` the folded
alternative, and otherwise the IfElse node is rebuilt over the three
folded sub-results. -/
theorem if_else_folding (p : Nat) (cv : Env) (fns : List TypedFunction)
    (cond : BooleanExpression) (t f t' : FieldElementExpression)
    (ht : t.propagate p cv fns = .ok t') :
    (∀ f', f.propagate p cv fns = .ok f' →
      ((cond.propagate p cv fns = .ok (.Value true) →
        (FieldElementExpression.IfElse cond t f).propagate p cv fns
          = .ok t') ∧
       (cond.propagate p cv fns = .ok (.Value false) →
        (FieldElementExpression.IfElse cond t f).propagate p cv fns
          = .ok f') ∧
       (∀ c', cond.propagate p cv fns = .ok c' → isBoolValue c' = false →
        (FieldElementExpression.IfElse cond t f).propagate p cv fns
          = .ok (.IfElse c' t' f')))) ∧
    (∀ er, f.propagate p cv fns = .error er →
      (FieldElementExpression.IfElse cond t f).propagate p cv fns
        = .error er) := by
  constructor
  · intro f' hf
    refine ⟨?_, ?_, ?_⟩
    · intro hc
      simp [FieldElementExpression.propagate, ht, hf, hc]
    · intro hc
      simp [FieldElementExpression.propagate, ht, hf, hc]
    · intro c' hc hnv
      simp only [FieldElementExpression.propagate, ht, hf, hc, okBind]
      cases c' <;> simp_all [isBoolValue]
  · intro er hf
    simp [FieldElementExpression.propagate, ht, hf]

/-- Witness for C5: a true condition selects the fully propagated
consequence, and a failure while folding the discarded alternative still
surfaces, showing the alternative is folded unconditionally. -/
theorem if_else_folding_witness :
    (FieldElementExpression.IfElse (.Value true) (.Number 1)
        (.Identifier "z")).propagate 7 [] [] = .ok (.Number 1) ∧
    (FieldElementExpression.IfElse (.Value true) (.Number 1)
        (.Div (.Number 1) (.Number 0))).propagate 7 [] []
      = .error .divisionByZero := by
  constructor
  · exact ((if_else_folding 7 [] [] (.Value true) (.Number 1)
      (.Identifier "z") (.Number 1) rfl).1 (.Identifier "z") rfl).1 rfl
  · exact (if_else_folding 7 [] [] (.Value true) (.Number 1)
      (.Div (.Number 1) (.Number 0)) (.Number 1) rfl).2
      .divisionByZero rfl

/-- C9: a Condition statement propagates both sides independently and is
always retained; the environment is left unchanged. -/
theorem condition_always_retained (p : Nat) (cv : Env)
    (fns : List TypedFunction) (e1 e2 e1' e2' : TypedExpression)
    (h1 : e1.propagate p cv fns = .ok e1')
    (h2 : e2.propagate p cv fns = .ok e2') :
    (TypedStatement.Condition e1 e2).propagate p cv fns
      = .ok (some (.Condition e1' e2'), cv) := by
  simp [TypedStatement.propagate, h1, h2]

/-- Witness for C9: Condition statements over equal literals and over
provably unequal literals are both retained. -/
theorem condition_always_retained_witness :
    (TypedStatement.Condition (.FieldElement (.Number 2))
        (.FieldElement (.Number 2))).propagate 7 [] []
      = .ok (some (.Condition (.FieldElement (.Number 2))
          (.FieldElement (.Number 2))), []) ∧
    (TypedStatement.Condition (.FieldElement (.Number 2))
        (.FieldElement (.Number 3))).propagate 7 [] []
      = .ok (some (.Condition (.FieldElement (.Number 2))
          (.FieldElement (.Number 3))), []) :=
  ⟨condition_always_retained 7 [] [] _ _ _ _ rfl rfl,
   condition_always_retained 7 [] [] _ _ _ _ rfl rfl⟩

/-- C10: a Definition whose propagated right-hand side is not a literal
leaves the environment entirely unchanged, including any stale entry for
the redefined variable; in the concrete body
`[Definition(x, 2), Definition(x, z + 1), Return([x])]` the retained
redefinition does not remove the stale binding `x -> 2`, so the final
Return substitutes the earlier literal `2`. -/
theorem definition_nonliteral_frame (p : Nat) (cv : Env)
    (fns : List TypedFunction) (v : Variable) (e e0 : TypedExpression)
    (h1 : e.propagate p cv fns = .ok e0)
    (h2 : isLiteral e0 = false) :
    (TypedStatement.Definition v e).propagate p cv fns
      = .ok (some (.Definition v e0), cv) ∧
    propagateStatements fieldPrime [] []
      [ .Definition (Variable.field_element "x") (.FieldElement (.Number 2)),
        .Definition (Variable.field_element "x")
          (.FieldElement (.Add (.Identifier "z") (.Number 1))),
        .Return [.FieldElement (.Identifier "x")] ] =
      .ok ([ .Definition (Variable.field_element "x")
               (.FieldElement (.Add (.Identifier "z") (.Number 1))),
             .Return [.FieldElement (.Number 2)] ],
           [ (Variable.field_element "x", .FieldElement (.Number 2)) ]) := by
  constructor
  · simp [TypedStatement.propagate, h1, h2]
  · rfl

mutual
/-- Field-expression propagation never reads the function table: the
`functions` argument is only threaded through. -/
theorem fe_propagate_fns (p : Nat) (cv : Env)
    (fns fns2 : List TypedFunction) :
    ∀ e : FieldElementExpression,
      e.propagate p cv fns = e.propagate p cv fns2
  | .Number _ => rfl
  | .Identifier _ => rfl
  | .Add e1 e2 => by
      simp only [FieldElementExpression.propagate,
        fe_propagate_fns p cv fns fns2 e1,
        fe_propagate_fns p cv fns fns2 e2]
  | .Sub e1 e2 => by
      simp only [FieldElementExpression.propagate,
        fe_propagate_fns p cv fns fns2 e1,
        fe_propagate_fns p cv fns fns2 e2]
  | .Mult e1 e2 => by
      simp only [FieldElementExpression.propagate,
        fe_propagate_fns p cv fns fns2 e1,
        fe_propagate_fns p cv fns fns2 e2]
  | .Div e1 e2 => by
      simp only [FieldElementExpression.propagate,
        fe_propagate_fns p cv fns fns2 e1,
        fe_propagate_fns p cv fns fns2 e2]
  | .Pow e1 e2 => by
      simp only [FieldElementExpression.propagate,
        fe_propagate_fns p cv fns fns2 e1,
        fe_propagate_fns p cv fns fns2 e2]
  | .IfElse c t f => by
      simp only [FieldElementExpression.propagate,
        bool_propagate_fns p cv fns fns2 c,
        fe_propagate_fns p cv fns fns2 t,
        fe_propagate_fns p cv fns fns2 f]
  | .FunctionCall id args => by
      simp only [FieldElementExpression.propagate,
        telist_propagate_fns p cv fns fns2 args]

/-- Boolean-expression propagation never reads the function table. -/
theorem bool_propagate_fns (p : Nat) (cv : Env)
    (fns fns2 : List TypedFunction) :
    ∀ e : BooleanExpression, e.propagate p cv fns = e.propagate p cv fns2
  | .Value _ => rfl
  | .Identifier _ => rfl
  | .Eq e1 e2 => by
      simp only [BooleanExpression.propagate,
        fe_propagate_fns p cv fns fns2 e1,
        fe_propagate_fns p cv fns fns2 e2]
  | .Lt e1 e2 => by
      simp only [BooleanExpression.propagate,
        fe_propagate_fns p cv fns fns2 e1,
        fe_propagate_fns p cv fns fns2 e2]
  | .Le e1 e2 => by
      simp only [BooleanExpression.propagate,
        fe_propagate_fns p cv fns fns2 e1,
        fe_propagate_fns p cv fns fns2 e2]
  | .Gt e1 e2 => by
      simp only [BooleanExpression.propagate,
        fe_propagate_fns p cv fns fns2 e1,
        fe_propagate_fns p cv fns fns2 e2]
  | .Ge e1 e2 => by
      simp only [BooleanExpression.propagate,
        fe_propagate_fns p cv fns fns2 e1,
        fe_propagate_fns p cv fns fns2 e2]

/-- Typed-expression propagation never reads the function table. -/
theorem te_propagate_fns (p : Nat) (cv : Env)
    (fns fns2 : List TypedFunction) :
    ∀ e : TypedExpression, e.propagate p cv fns = e.propagate p cv fns2
  | .FieldElement e => by
      simp only [TypedExpression.propagate,
        fe_propagate_fns p cv fns fns2 e]
  | .Boolean e => by
      simp only [TypedExpression.propagate,
        bool_propagate_fns p cv fns fns2 e]

/-- Argument-list propagation never reads the function table. -/
theorem telist_propagate_fns (p : Nat) (cv : Env)
    (fns fns2 : List TypedFunction) :
    ∀ es : List TypedExpression,
      TypedExpression.propagateList p cv fns es
        = TypedExpression.propagateList p cv fns2 es
  | [] => rfl
  | e :: rest => by
      simp only [TypedExpression.propagateList,
        te_propagate_fns p cv fns fns2 e,
        telist_propagate_fns p cv fns fns2 rest]
end

/-- Expression-list propagation never reads the function table. -/
theorem exprlist_propagate_fns (p : Nat) (cv : Env)
    (fns fns2 : List TypedFunction) (es : TypedExpressionList) :
    es.propagate p cv fns = es.propagate p cv fns2 := by
  cases es with
  | FunctionCall id args kinds =>
      simp only [TypedExpressionList.propagate,
        telist_propagate_fns p cv fns fns2 args]

/-- Statement propagation never reads the function table. -/
theorem stmt_propagate_fns (p : Nat) (cv : Env)
    (fns fns2 : List TypedFunction) (s : TypedStatement) :
    s.propagate p cv fns = s.propagate p cv fns2 := by
  cases s with
  | Declaration v => rfl
  | Definition v e =>
      simp only [TypedStatement.propagate,
        te_propagate_fns p cv fns fns2 e]
  | Condition e1 e2 =>
      simp only [TypedStatement.propagate,
        te_propagate_fns p cv fns fns2 e1,
        te_propagate_fns p cv fns fns2 e2]
  | Return es =>
      simp only [TypedStatement.propagate,
        telist_propagate_fns p cv fns fns2 es]
  | For v a b body => rfl
  | MultipleDefinition vs es =>
      simp only [TypedStatement.propagate,
        exprlist_propagate_fns p cv fns fns2 es]

/-- Statement-list propagation never reads the function table. -/
theorem propagateStatements_fns (p : Nat) (fns fns2 : List TypedFunction) :
    ∀ (l : List TypedStatement) (cv : Env),
      propagateStatements p fns cv l = propagateStatements p fns2 cv l
  | [], _ => rfl
  | s :: rest, cv => by
      simp only [propagateStatements,
        stmt_propagate_fns p cv fns fns2 s]
      cases s.propagate p cv fns2 with
      | error er => rfl
      | ok r =>
          simp only [okBind]
          rw [propagateStatements_fns p fns fns2 rest r.2]

/-- Function propagation never reads the accumulated function table:
every function is propagated as if from an empty table, so nothing
bound while propagating one function can influence another. -/
theorem fn_propagate_fns (p : Nat) (fns : List TypedFunction)
    (f : TypedFunction) :
    f.propagate p fns = f.propagate p [] := by
  simp only [TypedFunction.propagate, propagateStatements_fns p fns [] ]

/-- The driver fold is a `mapM` of per-function propagation from the
empty table, prefixed by the accumulator. -/
theorem propagateFunctions_eq_mapM (p : Nat) :
    ∀ (l : List TypedFunction) (acc : List TypedFunction),
      propagateFunctions p acc l
        = (l.mapM (fun g => TypedFunction.propagate p [] g)).map
          (fun gs => acc ++ gs)
  | [], acc => by rw [propagateFunctions, List.mapM_nil]; simp
  | f :: rest, acc => by
      rw [propagateFunctions, fn_propagate_fns p acc f,
        List.mapM_cons]
      cases hf : f.propagate p [] with
      | error er => rfl
      | ok g =>
          simp only [okBind]
          rw [propagateFunctions_eq_mapM p rest (acc ++ [g])]
          cases hrest : rest.mapM (fun g => TypedFunction.propagate p [] g) with
          | error er => rfl
          | ok gs => simp

/-- C4: the program driver rewrites each function independently — the
result is a `mapM` over the declaration-ordered function list, each
function propagated from a fresh empty environment and an empty function
table, so no constant bound in one function is substituted in another;
all program fields other than the function list, and all function fields
other than the statement list, are preserved. -/
theorem program_scope_isolation (p : Nat) (prog : TypedProg)
    (fns : List TypedFunction) (f : TypedFunction) :
    TypedProg.propagate p prog
      = (prog.functions.mapM (fun g => TypedFunction.propagate p [] g)).map
          (fun gs => { prog with functions := gs }) ∧
    f.propagate p fns = f.propagate p [] ∧
    f.propagate p fns
      = (propagateStatements p fns [] f.statements).map
          (fun r => { f with statements := r.1 }) := by
  refine ⟨?_, fn_propagate_fns p fns f, ?_⟩
  · rw [TypedProg.propagate, propagateFunctions_eq_mapM]
    cases hm : prog.functions.mapM (fun g => TypedFunction.propagate p [] g) with
    | error er => rfl
    | ok gs => simp
  · rw [TypedFunction.propagate]
    cases hs : propagateStatements p fns [] f.statements with
    | error er => rfl
    | ok r => simp

/-- Every value stored in the constant environment is a literal — the
invariant maintained by statement processing, which only ever inserts
propagated right-hand sides that matched the literal patterns. -/
def EnvLits (cv : Env) : Prop := ∀ kv ∈ cv, isLiteral kv.2 = true

/-- The empty environment satisfies the literal invariant. -/
theorem envLits_nil : EnvLits [] := by
  intro kv hkv
  simp at hkv

/-- Inserting a literal preserves the literal invariant. -/
theorem envLits_insert {cv : Env} (hcv : EnvLits cv) (v : Variable)
    {te : TypedExpression} (hte : isLiteral te = true) :
    EnvLits (envInsert cv v te) := by
  intro kv hkv
  rcases List.mem_cons.mp hkv with h | h
  · rw [h]
    exact hte
  · exact hcv kv h

/-- A successful environment lookup yields a literal. -/
theorem envGet_lit {cv : Env} {v : Variable} {te : TypedExpression}
    (hcv : EnvLits cv) (h : envGet cv v = some te) : isLiteral te = true := by
  rw [envGet] at h
  cases hf : cv.find? (fun kv => decide (kv.1 = v)) with
  | none => rw [hf] at h; simp at h
  | some kv =>
      rw [hf] at h
      simp only [Option.map_some'] at h
      injection h with h
      rw [← h]
      exact hcv kv (List.mem_of_find?_eq_some hf)

set_option maxHeartbeats 1000000 in
mutual
/-- The output of field-expression propagation over a literal
environment is a fixed point of propagation over the empty environment
(and any function table). -/
theorem fe_propagate_idem (p : Nat) (cv : Env)
    (fns fns2 : List TypedFunction) (hcv : EnvLits cv) :
    ∀ (e e' : FieldElementExpression), e.propagate p cv fns = .ok e' →
      e'.propagate p [] fns2 = .ok e'
  | .Number n, e', h => by
      simp only [FieldElementExpression.propagate, Except.ok.injEq] at h
      subst h
      rfl
  | .Identifier id, e', h => by
      simp only [FieldElementExpression.propagate] at h
      cases hg : envGet cv (Variable.field_element id) with
      | none =>
          rw [hg] at h
          simp at h
          subst h
          rfl
      | some te =>
          rw [hg] at h
          have hlit := envGet_lit hcv hg
          cases te with
          | Boolean b => simp at h
          | FieldElement e0 =>
              simp at h
              subst h
              cases e0 <;> first | rfl | simp [isLiteral] at hlit
  | .Add e1 e2, e', h => by
      rw [add_unfold] at h
      cases h1 : e1.propagate p cv fns with
      | error er => rw [h1] at h; simp at h
      | ok a' =>
      cases h2 : e2.propagate p cv fns with
      | error er => rw [h1, h2] at h; simp at h
      | ok b' =>
        rw [h1, h2] at h
        simp only [okBind] at h
        have IH1 := fe_propagate_idem p cv fns fns2 hcv
          e1 a' h1
        have IH2 := fe_propagate_idem p cv fns fns2 hcv
          e2 b' h2
        cases a' <;> cases b' <;>
          (simp at h; subst h;
           first
             | rfl
             | (rw [add_unfold, IH1, IH2]; try rfl))
  | .Sub e1 e2, e', h => by
      rw [sub_unfold] at h
      cases h1 : e1.propagate p cv fns with
      | error er => rw [h1] at h; simp at h
      | ok a' =>
      cases h2 : e2.propagate p cv fns with
      | error er => rw [h1, h2] at h; simp at h
      | ok b' =>
        rw [h1, h2] at h
        simp only [okBind] at h
        have IH1 := fe_propagate_idem p cv fns fns2 hcv
          e1 a' h1
        have IH2 := fe_propagate_idem p cv fns fns2 hcv
          e2 b' h2
        cases a' <;> cases b' <;>
          (simp at h; subst h;
           first
             | rfl
             | (rw [sub_unfold, IH1, IH2]; try rfl))
  | .Mult e1 e2, e', h => by
      rw [mult_unfold] at h
      cases h1 : e1.propagate p cv fns with
      | error er => rw [h1] at h; simp at h
      | ok a' =>
      cases h2 : e2.propagate p cv fns with
      | error er => rw [h1, h2] at h; simp at h
      | ok b' =>
        rw [h1, h2] at h
        simp only [okBind] at h
        have IH1 := fe_propagate_idem p cv fns fns2 hcv
          e1 a' h1
        have IH2 := fe_propagate_idem p cv fns fns2 hcv
          e2 b' h2
        cases a' <;> cases b' <;>
          (simp at h; subst h;
           first
             | rfl
             | (rw [mult_unfold, IH1, IH2]; try rfl))
  | .Div e1 e2, e', h => by
      rw [div_unfold] at h
      cases h1 : e1.propagate p cv fns with
      | error er => rw [h1] at h; simp at h
      | ok a' =>
      cases h2 : e2.propagate p cv fns with
      | error er => rw [h1, h2] at h; simp at h
      | ok b' =>
        rw [h1, h2] at h
        simp only [okBind] at h
        have IH1 := fe_propagate_idem p cv fns fns2 hcv
          e1 a' h1
        have IH2 := fe_propagate_idem p cv fns fns2 hcv
          e2 b' h2
        cases a' <;> cases b' <;>
          try (simp at h; subst h;
               first
                 | rfl
                 | (rw [div_unfold, IH1, IH2]; try rfl))
        rename_i n1 n2
        simp at h
        cases hd : fdiv p n1 n2 with
        | error er => rw [hd] at h; simp at h
        | ok n =>
            rw [hd] at h
            simp at h
            subst h
            rfl
  | .Pow e1 e2, e', h => by
      rw [pow_unfold] at h
      cases h1 : e1.propagate p cv fns with
      | error er => rw [h1] at h; simp at h
      | ok a' =>
      cases h2 : e2.propagate p cv fns with
      | error er => rw [h1, h2] at h; simp at h
      | ok b' =>
        rw [h1, h2] at h
        simp only [okBind] at h
        have IH1 := fe_propagate_idem p cv fns fns2 hcv
          e1 a' h1
        have IH2 := fe_propagate_idem p cv fns fns2 hcv
          e2 b' h2
        cases a' <;> cases b' <;>
          try (simp at h; subst h;
               first
                 | rfl
                 | (rw [pow_unfold, IH1, IH2]; try rfl))
        rename_i n1 n2
        simp at h
        cases hd : fpow p n1 n2 with
        | error er => rw [hd] at h; simp at h
        | ok n =>
            rw [hd] at h
            simp at h
            subst h
            rfl
  | .IfElse c t f, e', h => by
      rw [ifelse_unfold] at h
      cases ht : t.propagate p cv fns with
      | error er => rw [ht] at h; simp at h
      | ok t' =>
      cases hf : f.propagate p cv fns with
      | error er => rw [ht, hf] at h; simp at h
      | ok f' =>
      cases hc : c.propagate p cv fns with
      | error er => rw [ht, hf, hc] at h; simp at h
      | ok c' =>
        rw [ht, hf, hc] at h
        simp only [okBind] at h
        have IHt := fe_propagate_idem p cv fns fns2 hcv
          t t' ht
        have IHf := fe_propagate_idem p cv fns fns2 hcv
          f f' hf
        have IHc := bool_propagate_idem p cv fns fns2 hcv
          c c' hc
        cases c' with
        | Value b =>
            cases b with
            | true => simp at h; subst h; exact IHt
            | false => simp at h; subst h; exact IHf
        | Identifier id =>
            simp at h; subst h
            rw [ifelse_unfold, IHt, IHf, IHc]
            rfl
        | Eq x y =>
            simp at h; subst h
            rw [ifelse_unfold, IHt, IHf, IHc]
            rfl
        | Lt x y =>
            simp at h; subst h
            rw [ifelse_unfold, IHt, IHf, IHc]
            rfl
        | Le x y =>
            simp at h; subst h
            rw [ifelse_unfold, IHt, IHf, IHc]
            rfl
        | Gt x y =>
            simp at h; subst h
            rw [ifelse_unfold, IHt, IHf, IHc]
            rfl
        | Ge x y =>
            simp at h; subst h
            rw [ifelse_unfold, IHt, IHf, IHc]
            rfl
  | .FunctionCall id args, e', h => by
      rw [fcall_unfold] at h
      cases hl : TypedExpression.propagateList p cv fns args with
      | error er => rw [hl] at h; simp at h
      | ok args' =>
          rw [hl] at h
          simp at h
          subst h
          have IH := telist_propagate_idem p cv fns fns2 hcv
            args args' hl
          rw [fcall_unfold, IH]
          rfl

/-- The output of boolean-expression propagation over a literal
environment is a fixed point of propagation over the empty
environment. -/
theorem bool_propagate_idem (p : Nat) (cv : Env)
    (fns fns2 : List TypedFunction) (hcv : EnvLits cv) :
    ∀ (e e' : BooleanExpression), e.propagate p cv fns = .ok e' →
      e'.propagate p [] fns2 = .ok e'
  | .Value v, e', h => by
      simp only [BooleanExpression.propagate, Except.ok.injEq] at h
      subst h
      rfl
  | .Identifier id, e', h => by
      simp only [BooleanExpression.propagate] at h
      cases hg : envGet cv (Variable.boolean id) with
      | none =>
          rw [hg] at h
          simp at h
          subst h
          rfl
      | some te =>
          rw [hg] at h
          have hlit := envGet_lit hcv hg
          cases te with
          | FieldElement f => simp at h
          | Boolean b0 =>
              simp at h
              subst h
              cases b0 <;> first | rfl | simp [isLiteral] at hlit
  | .Eq e1 e2, e', h => by
      rw [beq_unfold] at h
      cases h1 : e1.propagate p cv fns with
      | error er => rw [h1] at h; simp at h
      | ok a' =>
      cases h2 : e2.propagate p cv fns with
      | error er => rw [h1, h2] at h; simp at h
      | ok b' =>
        rw [h1, h2] at h
        simp only [okBind] at h
        have IH1 := fe_propagate_idem p cv fns fns2 hcv
          e1 a' h1
        have IH2 := fe_propagate_idem p cv fns fns2 hcv
          e2 b' h2
        cases a' <;> cases b' <;>
          (simp at h; subst h;
           first
             | rfl
             | (rw [beq_unfold, IH1, IH2]; try rfl))
  | .Lt e1 e2, e', h => by
      rw [blt_unfold] at h
      cases h1 : e1.propagate p cv fns with
      | error er => rw [h1] at h; simp at h
      | ok a' =>
      cases h2 : e2.propagate p cv fns with
      | error er => rw [h1, h2] at h; simp at h
      | ok b' =>
        rw [h1, h2] at h
        simp only [okBind] at h
        have IH1 := fe_propagate_idem p cv fns fns2 hcv
          e1 a' h1
        have IH2 := fe_propagate_idem p cv fns fns2 hcv
          e2 b' h2
        cases a' <;> cases b' <;>
          (simp at h; subst h;
           first
             | rfl
             | (rw [blt_unfold, IH1, IH2]; try rfl))
  | .Le e1 e2, e', h => by
      rw [ble_unfold] at h
      cases h1 : e1.propagate p cv fns with
      | error er => rw [h1] at h; simp at h
      | ok a' =>
      cases h2 : e2.propagate p cv fns with
      | error er => rw [h1, h2] at h; simp at h
      | ok b' =>
        rw [h1, h2] at h
        simp only [okBind] at h
        have IH1 := fe_propagate_idem p cv fns fns2 hcv
          e1 a' h1
        have IH2 := fe_propagate_idem p cv fns fns2 hcv
          e2 b' h2
        cases a' <;> cases b' <;>
          (simp at h; subst h;
           first
             | rfl
             | (rw [ble_unfold, IH1, IH2]; try rfl))
  | .Gt e1 e2, e', h => by
      rw [bgt_unfold] at h
      cases h1 : e1.propagate p cv fns with
      | error er => rw [h1] at h; simp at h
      | ok a' =>
      cases h2 : e2.propagate p cv fns with
      | error er => rw [h1, h2] at h; simp at h
      | ok b' =>
        rw [h1, h2] at h
        simp only [okBind] at h
        have IH1 := fe_propagate_idem p cv fns fns2 hcv
          e1 a' h1
        have IH2 := fe_propagate_idem p cv fns fns2 hcv
          e2 b' h2
        cases a' <;> cases b' <;>
          (simp at h; subst h;
           first
             | rfl
             | (rw [bgt_unfold, IH1, IH2]; try rfl))
  | .Ge e1 e2, e', h => by
      rw [bge_unfold] at h
      cases h1 : e1.propagate p cv fns with
      | error er => rw [h1] at h; simp at h
      | ok a' =>
      cases h2 : e2.propagate p cv fns with
      | error er => rw [h1, h2] at h; simp at h
      | ok b' =>
        rw [h1, h2] at h
        simp only [okBind] at h
        have IH1 := fe_propagate_idem p cv fns fns2 hcv
          e1 a' h1
        have IH2 := fe_propagate_idem p cv fns fns2 hcv
          e2 b' h2
        cases a' <;> cases b' <;>
          (simp at h; subst h;
           first
             | rfl
             | (rw [bge_unfold, IH1, IH2]; try rfl))

/-- The output of typed-expression propagation over a literal
environment is a fixed point of propagation over the empty
environment. -/
theorem te_propagate_idem (p : Nat) (cv : Env)
    (fns fns2 : List TypedFunction) (hcv : EnvLits cv) :
    ∀ (e e' : TypedExpression), e.propagate p cv fns = .ok e' →
      e'.propagate p [] fns2 = .ok e'
  | .FieldElement e, e', h => by
      rw [tefe_unfold] at h
      cases he : e.propagate p cv fns with
      | error er => rw [he] at h; simp at h
      | ok e0 =>
          rw [he] at h
          simp at h
          subst h
          have IH := fe_propagate_idem p cv fns fns2 hcv
            e e0 he
          rw [tefe_unfold, IH]
          rfl
  | .Boolean e, e', h => by
      rw [tebool_unfold] at h
      cases he : e.propagate p cv fns with
      | error er => rw [he] at h; simp at h
      | ok e0 =>
          rw [he] at h
          simp at h
          subst h
          have IH := bool_propagate_idem p cv fns fns2 hcv
            e e0 he
          rw [tebool_unfold, IH]
          rfl

/-- The output of argument-list propagation over a literal environment
is a fixed point of propagation over the empty environment. -/
theorem telist_propagate_idem (p : Nat) (cv : Env)
    (fns fns2 : List TypedFunction) (hcv : EnvLits cv) :
    ∀ (es es' : List TypedExpression),
      TypedExpression.propagateList p cv fns es = .ok es' →
      TypedExpression.propagateList p [] fns2 es' = .ok es'
  | [], es', h => by
      simp only [TypedExpression.propagateList, Except.ok.injEq] at h
      subst h
      rfl
  | e :: rest, es', h => by
      rw [telist_cons_unfold] at h
      cases he : e.propagate p cv fns with
      | error er => rw [he] at h; simp at h
      | ok e0 =>
      cases hrest : TypedExpression.propagateList p cv fns rest with
      | error er => rw [he, hrest] at h; simp at h
      | ok rest0 =>
          rw [he, hrest] at h
          simp at h
          subst h
          have IHe := te_propagate_idem p cv fns fns2 hcv
            e e0 he
          have IHrest := telist_propagate_idem p cv fns fns2 hcv
            rest rest0 hrest
          rw [telist_cons_unfold, IHe, IHrest]
          rfl
end

/-- One-step unfolding of statement-list propagation on a cons cell. -/
theorem stmts_cons_unfold (p : Nat) (fns : List TypedFunction) (cv : Env)
    (s : TypedStatement) (rest : List TypedStatement) :
    propagateStatements p fns cv (s :: rest)
      = (s.propagate p cv fns >>= fun r =>
         propagateStatements p fns r.2 rest >>= fun q =>
         match r.1 with
         | none => .ok (q.1, q.2)
         | some s0 => .ok (s0 :: q.1, q.2)) := rfl

/-- The output of expression-list propagation over a literal environment
is a fixed point of propagation over the empty environment. -/
theorem exprlist_propagate_idem (p : Nat) (cv : Env)
    (fns fns2 : List TypedFunction) (hcv : EnvLits cv)
    (es es' : TypedExpressionList) (h : es.propagate p cv fns = .ok es') :
    es'.propagate p [] fns2 = .ok es' := by
  cases es with
  | FunctionCall id args kinds =>
      simp only [TypedExpressionList.propagate] at h
      cases hl : TypedExpression.propagateList p cv fns args with
      | error er => rw [hl] at h; simp at h
      | ok args' =>
          rw [hl] at h
          simp at h
          subst h
          have IH := telist_propagate_idem p cv fns fns2 hcv
            args args' hl
          simp only [TypedExpressionList.propagate, IH, okBind]

/-- The output of statement-list propagation from a literal environment
is a fixed point: re-propagating it from the empty environment changes
nothing and ends with the empty environment. -/
theorem propagateStatements_idem (p : Nat) (fns fns2 : List TypedFunction) :
    ∀ (l : List TypedStatement) (cv : Env), EnvLits cv →
      ∀ (l' : List TypedStatement) (cv' : Env),
      propagateStatements p fns cv l = .ok (l', cv') →
      propagateStatements p fns2 [] l' = .ok (l', [])
  | [], cv, hcv, l', cv', h => by
      simp only [propagateStatements, Except.ok.injEq, Prod.mk.injEq] at h
      obtain ⟨h1, h2⟩ := h
      subst h1
      rfl
  | s :: rest, cv, hcv, l', cv', h => by
      rw [stmts_cons_unfold] at h
      cases s with
      | Declaration v =>
          simp only [TypedStatement.propagate, okBind] at h
          cases hr : propagateStatements p fns cv rest with
          | error er => rw [hr] at h; simp at h
          | ok q =>
              rw [hr] at h
              simp at h
              obtain ⟨h1, h2⟩ := h
              subst h1
              have IH := propagateStatements_idem p fns fns2 rest cv hcv
                q.1 q.2 (by rw [hr])
              rw [stmts_cons_unfold]
              simp only [TypedStatement.propagate, okBind, IH]
      | Definition v e =>
          simp only [TypedStatement.propagate] at h
          cases he : e.propagate p cv fns with
          | error er => rw [he] at h; simp at h
          | ok e0 =>
              rw [he] at h
              simp only [okBind] at h
              by_cases hl : isLiteral e0 = true
              · rw [if_pos hl] at h
                simp only [okBind] at h
                cases hr : propagateStatements p fns (envInsert cv v e0)
                    rest with
                | error er => rw [hr] at h; simp at h
                | ok q =>
                    obtain ⟨q1, q2⟩ := q
                    rw [hr] at h
                    simp at h
                    obtain ⟨h1, h2⟩ := h
                    subst h1
                    exact propagateStatements_idem p fns fns2 rest
                      (envInsert cv v e0) (envLits_insert hcv v hl)
                      q1 q2 (by rw [hr])
              · rw [if_neg hl] at h
                simp only [okBind] at h
                cases hr : propagateStatements p fns cv rest with
                | error er => rw [hr] at h; simp at h
                | ok q =>
                    rw [hr] at h
                    simp at h
                    obtain ⟨h1, h2⟩ := h
                    subst h1
                    have hte := te_propagate_idem p cv fns fns2
                      hcv e e0 he
                    have IH := propagateStatements_idem p fns fns2 rest cv hcv
                      q.1 q.2 (by rw [hr])
                    rw [stmts_cons_unfold]
                    simp only [TypedStatement.propagate, hte, okBind,
                      if_neg hl, IH]
      | Condition e1 e2 =>
          simp only [TypedStatement.propagate] at h
          cases h1 : e1.propagate p cv fns with
          | error er => rw [h1] at h; simp at h
          | ok a' =>
          cases h2 : e2.propagate p cv fns with
          | error er => rw [h1, h2] at h; simp at h
          | ok b' =>
              rw [h1, h2] at h
              simp only [okBind] at h
              cases hr : propagateStatements p fns cv rest with
              | error er => rw [hr] at h; simp at h
              | ok q =>
                  rw [hr] at h
                  simp at h
                  obtain ⟨h3, h4⟩ := h
                  subst h3
                  have ha := te_propagate_idem p cv fns fns2
                    hcv e1 a' h1
                  have hb := te_propagate_idem p cv fns fns2
                    hcv e2 b' h2
                  have IH := propagateStatements_idem p fns fns2 rest cv hcv
                    q.1 q.2 (by rw [hr])
                  rw [stmts_cons_unfold]
                  simp only [TypedStatement.propagate, ha, hb, okBind, IH]
      | Return es =>
          simp only [TypedStatement.propagate] at h
          cases hes : TypedExpression.propagateList p cv fns es with
          | error er => rw [hes] at h; simp at h
          | ok es' =>
              rw [hes] at h
              simp only [okBind] at h
              cases hr : propagateStatements p fns cv rest with
              | error er => rw [hr] at h; simp at h
              | ok q =>
                  rw [hr] at h
                  simp at h
                  obtain ⟨h1, h2⟩ := h
                  subst h1
                  have hl := telist_propagate_idem p cv fns fns2
                    hcv es es' hes
                  have IH := propagateStatements_idem p fns fns2 rest cv hcv
                    q.1 q.2 (by rw [hr])
                  rw [stmts_cons_unfold]
                  simp only [TypedStatement.propagate, hl, okBind, IH]
      | For v a b body =>
          simp only [TypedStatement.propagate] at h
          simp at h
      | MultipleDefinition vs es =>
          simp only [TypedStatement.propagate] at h
          cases hes : es.propagate p cv fns with
          | error er => rw [hes] at h; simp at h
          | ok es' =>
              rw [hes] at h
              simp only [okBind] at h
              cases hr : propagateStatements p fns cv rest with
              | error er => rw [hr] at h; simp at h
              | ok q =>
                  rw [hr] at h
                  simp at h
                  obtain ⟨h1, h2⟩ := h
                  subst h1
                  have hel := exprlist_propagate_idem p cv fns fns2
                    hcv es es' hes
                  have IH := propagateStatements_idem p fns fns2 rest cv hcv
                    q.1 q.2 (by rw [hr])
                  rw [stmts_cons_unfold]
                  simp only [TypedStatement.propagate, hel, okBind, IH]

/-- The output of function propagation is a fixed point of function
propagation. -/
theorem fn_propagate_idem (p : Nat)
    (fns fns2 : List TypedFunction) (f f' : TypedFunction)
    (h : f.propagate p fns = .ok f') : f'.propagate p fns2 = .ok f' := by
  rw [TypedFunction.propagate] at h
  cases hs : propagateStatements p fns [] f.statements with
  | error er => rw [hs] at h; simp at h
  | ok r =>
      rw [hs] at h
      simp at h
      subst h
      have hidem := propagateStatements_idem p fns fns2 f.statements []
        envLits_nil r.1 r.2 (by rw [hs])
      rw [TypedFunction.propagate]
      simp only [hidem, okBind]

/-- A list of already-propagated functions maps to itself under
per-function propagation. -/
theorem mapM_propagate_idem (p : Nat) :
    ∀ (l gs : List TypedFunction),
      l.mapM (fun g => TypedFunction.propagate p [] g) = .ok gs →
      gs.mapM (fun g => TypedFunction.propagate p [] g) = .ok gs
  | [], gs, h => by
      rw [List.mapM_nil] at h
      simp at h
      subst h
      rw [List.mapM_nil]
      rfl
  | f :: rest, gs, h => by
      rw [List.mapM_cons] at h
      cases hf : TypedFunction.propagate p [] f with
      | error er => rw [hf] at h; simp at h
      | ok g =>
      cases hrest : rest.mapM (fun g => TypedFunction.propagate p [] g) with
      | error er => rw [hf, hrest] at h; simp at h
      | ok grest =>
          rw [hf, hrest] at h
          simp at h
          subst h
          have h1 := fn_propagate_idem p [] [] f g hf
          have h2 := mapM_propagate_idem p rest grest hrest
          rw [List.mapM_cons, h1, h2]
          rfl

/-- C8: propagation is idempotent at the program level — propagating
the successful output of propagation yields that output again. -/
theorem propagate_idempotent (p : Nat) (prog q : TypedProg)
    (h : prog.propagate p = .ok q) : q.propagate p = .ok q := by
  rw [TypedProg.propagate, propagateFunctions_eq_mapM] at h
  cases hm : prog.functions.mapM (fun g => TypedFunction.propagate p [] g)
      with
  | error er => rw [hm] at h; simp at h
  | ok gs =>
      rw [hm] at h
      simp at h
      subst h
      rw [TypedProg.propagate, propagateFunctions_eq_mapM]
      simp only [List.nil_append]
      have := mapM_propagate_idem p prog.functions gs hm
      simp only [this, okMap, okBind]

/-- Witness for C8: a concrete two-definition program propagates to a
program that propagation maps to itself. -/
theorem propagate_idempotent_witness :
    TypedProg.propagate 7
      { functions :=
          [ { id := "main", arguments := [],
              returnKinds := [VarKind.fieldElement],
              statements := [ .Return [.FieldElement (.Number 5)] ] } ],
        imports := ["lib"] }
      = .ok
      { functions :=
          [ { id := "main", arguments := [],
              returnKinds := [VarKind.fieldElement],
              statements := [ .Return [.FieldElement (.Number 5)] ] } ],
        imports := ["lib"] } :=
  propagate_idempotent 7
    { functions :=
        [ { id := "main", arguments := [],
            returnKinds := [VarKind.fieldElement],
            statements :=
              [ .Definition (Variable.field_element "x")
                  (.FieldElement (.Number 2)),
                .Definition (Variable.field_element "y")
                  (.FieldElement (.Add (.Identifier "x") (.Number 3))),
                .Return [.FieldElement (.Identifier "y")] ] } ],
      imports := ["lib"] }
    { functions :=
        [ { id := "main", arguments := [],
            returnKinds := [VarKind.fieldElement],
            statements := [ .Return [.FieldElement (.Number 5)] ] } ],
      imports := ["lib"] }
    (by rfl)

/-- Witness for C10: a redefinition of `x` by a non-literal right-hand
side is emitted with the environment unchanged. -/
theorem definition_nonliteral_frame_witness :
    (TypedStatement.Definition (Variable.field_element "x")
        (.FieldElement (.Identifier "w"))).propagate 7 [] []
      = .ok (some (.Definition (Variable.field_element "x")
          (.FieldElement (.Identifier "w"))), []) :=
  (definition_nonliteral_frame 7 [] [] (Variable.field_element "x")
    (.FieldElement (.Identifier "w")) (.FieldElement (.Identifier "w"))
    rfl rfl).1

end Propagation
